import Mathlib

set_option maxRecDepth 8000

/-!
Shallow embedding of `generate-registry.ts`: a script that scans a
`registry/` directory tree, classifies the import statements of every
entity's source files into package / catalog / unresolved dependencies,
and merges the freshly computed registry items into a persisted
`registry.json` manifest.

JavaScript strings are embedded as Lean `String`, with the string
operations the script uses (`startsWith`, `endsWith`, `slice`, `split`,
`toLowerCase`, ...) modelled on the underlying character list so that
every definition evaluates by kernel reduction.  JavaScript `Set` objects
are embedded as duplicate-free lists in insertion order, and `Map`
objects as association lists with JavaScript `Map.set` semantics
(overwrite in place, append when absent).  `Array.prototype.sort()` on
string arrays is embedded as insertion sort by code-point order.
-/

-- ---------------------------------------------------------------------------
-- String helpers (models of the JavaScript string operations used)
-- ---------------------------------------------------------------------------

/-- Model of JavaScript `String.prototype.startsWith`. -/
def strStarts (s pre : String) : Bool := pre.data.isPrefixOf s.data

/-- Model of JavaScript `String.prototype.endsWith`. -/
def strEnds (s suf : String) : Bool := suf.data.isSuffixOf s.data

/-- Model of JavaScript `String.prototype.slice(n)` (drop the first `n` characters). -/
def strDrop (s : String) (n : Nat) : String := String.mk (s.data.drop n)

def squote : Char := Char.ofNat 39

def dquote : Char := Char.ofNat 34

def slashChar : Char := Char.ofNat 47

def dotChar : Char := Char.ofNat 46

/-- Model of JavaScript `String.prototype.split` with a single-character
separator class given by the predicate `p` (empty pieces are kept, as in
JavaScript). -/
def splitOnPred (p : Char → Bool) : List Char → List (List Char)
  | [] => [[]]
  | x :: rest =>
    let r := splitOnPred p rest
    if p x then [] :: r
    else
      match r with
      | [] => [[x]]
      | w :: ws => (x :: w) :: ws

/-- `s.split("/")` on a string. -/
def strSplitSlash (s : String) : List String :=
  (splitOnPred (fun c => c == slashChar) s.data).map String.mk

/-- Model of JavaScript `String.prototype.toLowerCase` (character-wise). -/
def strToLower (s : String) : String := String.mk (s.data.map Char.toLower)

-- code-point lexicographic order on strings, modelling the default
-- comparator of JavaScript `Array.prototype.sort` on string arrays

def listCharLt : List Char → List Char → Bool
  | [], [] => false
  | [], _ :: _ => true
  | _ :: _, [] => false
  | a :: as, b :: bs =>
    if a.toNat < b.toNat then true
    else if b.toNat < a.toNat then false
    else listCharLt as bs

def strLt (a b : String) : Bool := listCharLt a.data b.data

def strLe (a b : String) : Bool := strLt a b || a == b

def strLtP (a b : String) : Prop := strLt a b = true

def strLeP (a b : String) : Prop := strLe a b = true

instance : DecidableRel strLtP := fun a b => inferInstanceAs (Decidable (strLt a b = true))

instance : DecidableRel strLeP := fun a b => inferInstanceAs (Decidable (strLe a b = true))

/-- Model of `[...someSet].sort()` on an array of strings. -/
def sortStrings (l : List String) : List String := List.insertionSort strLeP l

-- ---------------------------------------------------------------------------
-- JavaScript Set and Map models
-- ---------------------------------------------------------------------------

/-- JavaScript `Set.prototype.add`: append unless already present. -/
def setAdd (s : List String) (x : String) : List String :=
  if s.contains x then s else s ++ [x]

/-- `src.forEach((d) => dst.add(d))`. -/
def setUnion (dst src : List String) : List String := src.foldl setAdd dst

/-- JavaScript `Set.prototype.delete`. -/
def setDelete (s : List String) (x : String) : List String :=
  s.filter (fun y => !(y == x))

/-- JavaScript `Map.prototype.get`. -/
def alGet {α : Type} (m : List (String × α)) (k : String) : Option α :=
  (m.find? (fun e => e.1 == k)).map (fun e => e.2)

/-- JavaScript `Map.prototype.set`: overwrite in place when the key is
present, append otherwise. -/
def alInsert {α : Type} (m : List (String × α)) (k : String) (v : α) : List (String × α) :=
  if m.any (fun e => e.1 == k) then
    m.map (fun e => if e.1 == k then (k, v) else e)
  else m ++ [(k, v)]

def optOr {α : Type} (a b : Option α) : Option α :=
  match a with
  | some v => some v
  | none => b

-- ---------------------------------------------------------------------------
-- Configuration constants of generate-registry.ts
-- ---------------------------------------------------------------------------

def REGISTRY_NAME : String := "my-registry"

def REGISTRY_HOMEPAGE : String := "https://your-registry-url.com"

def SCHEMA_URL : String := "https://ui.shadcn.com/schema/registry.json"

structure CategoryCfg where
  itemType : String
  fileType : String
  targetDir : String
deriving DecidableEq, Repr

/-- `ENTITY_CATEGORIES`, as an ordered list of key/configuration pairs
(the iteration order of `Object.keys`). -/
def ENTITY_CATEGORIES : List (String × CategoryCfg) :=
  [("components", ⟨"registry:component", "registry:component", "components"⟩),
   ("hooks", ⟨"registry:hook", "registry:hook", "hooks"⟩),
   ("lib", ⟨"registry:lib", "registry:lib", "lib"⟩),
   ("types", ⟨"registry:lib", "registry:lib", "types"⟩),
   ("styles", ⟨"registry:component", "registry:style", "styles"⟩)]

def LOCAL_ALIASES : List String := ["@/", "~/", "#"]

/-- The `SHADCN_UI_PATTERNS` regular expressions `^PREFIX(.+)$`, represented
by their literal prefixes (the capture group is everything after the prefix). -/
def SHADCN_UI_PREFIXES : List String :=
  ["@/components/ui/", "~/components/ui/", "components/ui/"]

/-- The `EXCLUDED_PATTERNS` regular expressions, each of the form
`\.(stories|test|spec)\.[tj]sx?$`, expanded to the finite set of suffixes
they accept. -/
def EXCLUDED_SUFFIXES : List String :=
  [".stories.ts", ".stories.tsx", ".stories.js", ".stories.jsx",
   ".test.ts", ".test.tsx", ".test.js", ".test.jsx",
   ".spec.ts", ".spec.tsx", ".spec.js", ".spec.jsx"]

def SOURCE_EXTENSIONS : List String := [".tsx", ".ts", ".js", ".jsx"]

def NODE_BUILTINS : List String :=
  ["assert", "buffer", "child_process", "cluster", "console", "constants",
   "crypto", "dgram", "dns", "domain", "events", "fs", "http", "http2",
   "https", "module", "net", "os", "path", "perf_hooks", "process",
   "punycode", "querystring", "readline", "repl", "stream",
   "string_decoder", "timers", "tls", "trace_events", "tty", "url",
   "util", "v8", "vm", "worker_threads", "zlib"]

-- ---------------------------------------------------------------------------
-- Kebab-case normalisation (external library helper)
-- ---------------------------------------------------------------------------

def kebabSep (c : Char) : Bool :=
  c == Char.ofNat 45 || c == Char.ofNat 95 || c == Char.ofNat 32

def kebabGroups (cs : List Char) : List (List Char) :=
  cs.foldl
    (fun acc c =>
      if kebabSep c then acc ++ [[]]
      else if c.isUpper then acc ++ [[c.toLower]]
      else
        match acc.getLast? with
        | none => [[c]]
        | some w => acc.dropLast ++ [w ++ [c]])
    []

/-- Modelled from the spec: `toKebabCase` is imported from the external
`remeda` library, whose source is not part of this repository.  Per the
spec, an entity's canonical name is "its directory name transformed to a
normalized dash-separated lowercase form" — words are delimited by the
separators `-`, `_`, space and by uppercase letters, lowercased and
joined with dashes. -/
def toKebabCase (s : String) : String :=
  String.intercalate "-" (((kebabGroups s.data).filter (fun w => !w.isEmpty)).map String.mk)

-- ---------------------------------------------------------------------------
-- Import parsing
-- ---------------------------------------------------------------------------

def isSpaceChar (c : Char) : Bool :=
  c == Char.ofNat 32 || c == Char.ofNat 9 || c == Char.ofNat 10 ||
  c == Char.ofNat 13 || c == Char.ofNat 12 || c == Char.ofNat 11

/-- Parse `['"]([^'"]+)['"]` at the head of `cs`; return the capture and
the remaining characters. -/
def quotedBodyRest (cs : List Char) : Option (String × List Char) :=
  match cs with
  | [] => none
  | c :: rest =>
    if c == squote || c == dquote then
      let body := rest.takeWhile (fun x => !(x == squote) && !(x == dquote))
      match rest.drop body.length with
      | d :: r =>
        if (d == squote || d == dquote) && !body.isEmpty then some (String.mk body, r)
        else none
      | [] => none
    else none

/-- First quoted literal anywhere in `cs`. -/
def firstQuoted : List Char → Option String
  | [] => none
  | c :: rest =>
    match quotedBodyRest (c :: rest) with
    | some x => some x.1
    | none => firstQuoted rest

/-- One line of the `staticRe` regular expression
`(?:^|\n)\s*(?:import|export)\s+(?:.*?\s+from\s+)?['"]([^'"]+)['"]`:
leading whitespace, the keyword `import` or `export` followed by
whitespace, then the first quoted literal of the line. -/
def staticImportOfLine (line : String) : Option String :=
  let t := line.data.dropWhile isSpaceChar
  let afterKw :=
    if "import".data.isPrefixOf t then some (t.drop 6)
    else if "export".data.isPrefixOf t then some (t.drop 6)
    else none
  match afterKw with
  | none => none
  | some rest =>
    match rest with
    | [] => none
    | c :: _ => if isSpaceChar c then firstQuoted rest else none

/-- Parse the `dynRe` regular expression
`(?:require|import)\s*\(\s*['"]([^'"]+)['"]\s*\)` anchored at the head
of `cs`. -/
def parseDynAt (cs : List Char) : Option String :=
  let afterKw :=
    if "require".data.isPrefixOf cs then some (cs.drop 7)
    else if "import".data.isPrefixOf cs then some (cs.drop 6)
    else none
  match afterKw with
  | none => none
  | some r1 =>
    match r1.dropWhile isSpaceChar with
    | [] => none
    | c :: r3 =>
      if c == Char.ofNat 40 then
        match quotedBodyRest (r3.dropWhile isSpaceChar) with
        | some (s, r5) =>
          match r5.dropWhile isSpaceChar with
          | d :: _ => if d == Char.ofNat 41 then some s else none
          | [] => none
        | none => none
      else none

def dynScan : List Char → List String
  | [] => []
  | c :: rest =>
    match parseDynAt (c :: rest) with
    | some s => s :: dynScan rest
    | none => dynScan rest

/-- `new Set(...)` collection: keep the first occurrence of each element. -/
def dedupKeepFirst (l : List String) : List String :=
  l.foldl setAdd []

/-- `extractImportPaths`: the distinct literal import paths of one file,
static `import`/`export ... from` forms (modelled line-wise in their
common single-line form) followed by call-style `require(...)` /
`import(...)` forms, collected into a set. -/
def extractImportPaths (source : String) : List String :=
  let staticOnes := ((splitOnPred (fun c => c == Char.ofNat 10) source.data).map String.mk).filterMap staticImportOfLine
  let dynOnes := dynScan source.data
  dedupKeepFirst (staticOnes ++ dynOnes)

-- ---------------------------------------------------------------------------
-- Path classification
-- ---------------------------------------------------------------------------

/-- `toPackageName`. -/
def toPackageName (p : String) : String :=
  if strStarts p "@" then String.intercalate "/" ((strSplitSlash p).take 2)
  else (strSplitSlash p).headD ""

/-- `isLocalImport`. -/
def isLocalImport (p : String) : Bool :=
  strStarts p "." || LOCAL_ALIASES.any (fun a => strStarts p a)

/-- A character the JavaScript regex `.` matches (anything but a line
terminator). -/
def jsDotChar (c : Char) : Bool :=
  !(c == Char.ofNat 10) && !(c == Char.ofNat 13) &&
  !(c == Char.ofNat 0x2028) && !(c == Char.ofNat 0x2029)

/-- Match a single `SHADCN_UI_PATTERNS` entry `^PREFIX(.+)$` against `p`:
the capture is everything after the prefix, which must be non-empty and
consist of characters the regex `.` accepts. -/
def uiPatternCapture (pat p : String) : Option String :=
  if strStarts p pat then
    let rest := strDrop p pat.length
    if !rest.data.isEmpty && rest.data.all jsDotChar then some rest else none
  else none

/-- `extractShadcnComponent`: first matching pattern wins. -/
def extractShadcnComponent (p : String) : Option String :=
  SHADCN_UI_PREFIXES.findSome? (fun pat => uiPatternCapture pat p)

/-- `resolveRegistryDep`: strip the first matching local-alias prefix,
look the remainder up exactly, then (for paths of at least two segments)
look up the first two segments; stop after the first matching alias. -/
def resolveRegistryDep (p : String) (regMap : List (String × String)) : Option String :=
  match LOCAL_ALIASES.find? (fun a => strStarts p a) with
  | none => none
  | some a =>
    let rest := strDrop p a.length
    match alGet regMap rest with
    | some v => some v
    | none =>
      match strSplitSlash rest with
      | p0 :: p1 :: _ => alGet regMap (p0 ++ "/" ++ p1)
      | _ => none

/-- Spec-side restatement of alias resolution (spec section 4.4, step 2),
written as an ordered scan over the configured alias prefixes that stops
at the first prefix match regardless of lookup outcome. -/
def aliasScanSpec (p : String) (regMap : List (String × String)) : List String → Option String
  | [] => none
  | a :: moreAliases =>
    if strStarts p a then
      let remainder := strDrop p a.length
      match alGet regMap remainder with
      | some v => some v
      | none =>
        match strSplitSlash remainder with
        | seg0 :: seg1 :: _ => alGet regMap (seg0 ++ "/" ++ seg1)
        | _ => none
    else aliasScanSpec p regMap moreAliases

def aliasResolutionSpec (p : String) (regMap : List (String × String)) : Option String :=
  aliasScanSpec p regMap LOCAL_ALIASES

-- ---------------------------------------------------------------------------
-- Per-import classification and per-file analysis
-- ---------------------------------------------------------------------------

inductive DepClass where
  | registryDep (name : String)
  | npmDep (nameVer : String)
  | unresolvedDep (name : String)
  | skipped
deriving DecidableEq, Repr

/-- The tail of the classification chain in `analyzeFile`'s loop body:
local import → skip; builtin → skip; in `package.json` → package
dependency; otherwise unresolved. -/
def classifyTail (p : String) (packageMap : List (String × String)) : DepClass :=
  if isLocalImport p then DepClass.skipped
  else
    let pkgName := toPackageName p
    if NODE_BUILTINS.contains pkgName then DepClass.skipped
    else
      match alGet packageMap pkgName with
      | some v => DepClass.npmDep v
      | none => DepClass.unresolvedDep pkgName

/-- The classification of one import path, following the loop body of
`analyzeFile` exactly: shadcn/ui pattern first, then (for non-relative
paths) alias resolution — whose result is used only when truthy, i.e.
non-empty — then the local / builtin / package chain. -/
def classifyImport (p : String) (packageMap regMap : List (String × String)) : DepClass :=
  match extractShadcnComponent p with
  | some n => DepClass.registryDep n
  | none =>
    let rd := if !(strStarts p ".") then resolveRegistryDep p regMap else none
    match rd with
    | some d => if d.isEmpty then classifyTail p packageMap else DepClass.registryDep d
    | none => classifyTail p packageMap

structure FileDeps where
  npm : List String
  registry : List String
  unresolved : List String
deriving DecidableEq, Repr

def emptyDeps : FileDeps := ⟨[], [], []⟩

def addDep (d : FileDeps) (c : DepClass) : FileDeps :=
  match c with
  | DepClass.registryDep n => { d with registry := setAdd d.registry n }
  | DepClass.npmDep v => { d with npm := setAdd d.npm v }
  | DepClass.unresolvedDep n => { d with unresolved := setAdd d.unresolved n }
  | DepClass.skipped => d

def analyzeImports (imports : List String) (packageMap regMap : List (String × String)) : FileDeps :=
  imports.foldl (fun d p => addDep d (classifyImport p packageMap regMap)) emptyDeps

/-- `analyzeFile`. -/
def analyzeFile (source : String) (packageMap regMap : List (String × String)) : FileDeps :=
  analyzeImports (extractImportPaths source) packageMap regMap

-- ---------------------------------------------------------------------------
-- package.json resolution
-- ---------------------------------------------------------------------------

structure PackageJson where
  dependencies : Option (List (String × String))
  devDependencies : Option (List (String × String))
  peerDependencies : Option (List (String × String))
deriving DecidableEq, Repr

/-- `buildPackageMap`: iterate dependencies, then devDependencies, then
peerDependencies, mapping each package name to `"name@version"`; later
sections overwrite earlier ones. -/
def buildPackageMap (pkg : PackageJson) : List (String × String) :=
  ((pkg.dependencies.getD []) ++ (pkg.devDependencies.getD []) ++ (pkg.peerDependencies.getD [])).foldl
    (fun m nv => alInsert m nv.1 (nv.1 ++ "@" ++ nv.2)) []

-- ---------------------------------------------------------------------------
-- File system model and file helpers
-- ---------------------------------------------------------------------------

/-- One file inside an entity directory: its path as produced by
`walkDir` and its text content. -/
structure SrcFile where
  path : String
  content : String
deriving DecidableEq, Repr

structure EntityDir where
  name : String
  files : List SrcFile
deriving DecidableEq, Repr

structure CategoryDir where
  name : String
  entities : List EntityDir
deriving DecidableEq, Repr

/-- The input directory tree: whether the registry root exists, and the
directory entries directly beneath it (with their entity
sub-directories and the files `walkDir` finds inside each). -/
structure FS where
  rootExists : Bool
  categoryDirs : List CategoryDir
deriving DecidableEq, Repr

/-- Model of `path.basename`. -/
def basename (p : String) : String := (strSplitSlash p).getLastD p

/-- Model of `path.extname`: the suffix of the basename from its last
dot, empty when there is no dot or the only dot is the leading one. -/
def extname (p : String) : String :=
  let b := (basename p).data
  let afterDot := b.reverse.takeWhile (fun c => !(c == dotChar))
  if afterDot.length == b.length then ""
  else if b.length - afterDot.length - 1 == 0 then ""
  else String.mk (dotChar :: afterDot.reverse)

/-- `isSourceFile`. -/
def isSourceFile (filePath : String) : Bool :=
  (SOURCE_EXTENSIONS.contains (extname filePath) || strEnds filePath ".css")
  && !(EXCLUDED_SUFFIXES.any (fun suf => strEnds filePath suf))

/-- `path.basename(filePath, path.extname(filePath))`. -/
def baseNameNoExt (p : String) : String :=
  let b := basename p
  let e := extname p
  if e.isEmpty then b else String.mk (b.data.take (b.data.length - e.data.length))

/-- `inferFileType`. -/
def inferFileType (filePath : String) (categoryDefault : String) : String :=
  if strEnds filePath ".css" then "registry:style"
  else
    let base := strToLower (baseNameNoExt filePath)
    if strStarts base "use-" || strEnds base "-hook" then "registry:hook"
    else if base == "utils" || base == "helpers" || base == "lib" then "registry:lib"
    else categoryDefault

def capitalizeWord (w : String) : String :=
  match w.data with
  | [] => ""
  | c :: rest => String.mk (c.toUpper :: rest)

-- the separator class of `toTitle`'s split
def kebabSepDashUnderscore (c : Char) : Bool :=
  c == Char.ofNat 45 || c == Char.ofNat 95

/-- `toTitle`: split on dashes and underscores, capitalize each word,
join with spaces. -/
def toTitle (name : String) : String :=
  String.intercalate " "
    (((splitOnPred kebabSepDashUnderscore name.data).map String.mk).map capitalizeWord)

-- ---------------------------------------------------------------------------
-- Registry data model
-- ---------------------------------------------------------------------------

structure RegistryFile where
  path : String
  type : String
  target : String
deriving DecidableEq, Repr

structure RegistryItem where
  name : String
  type : String
  title : String
  description : Option String
  dependencies : Option (List String)
  registryDependencies : Option (List String)
  files : List RegistryFile
deriving DecidableEq, Repr

structure Registry where
  schema : String
  name : String
  homepage : String
  items : List RegistryItem
deriving DecidableEq, Repr

-- ---------------------------------------------------------------------------
-- Processing one entity
-- ---------------------------------------------------------------------------

/-- The aggregation loop of `processEntity`: analyze every non-stylesheet
source file and union the three dependency sets. -/
def entityDeps (sourceFiles : List SrcFile) (packageMap regMap : List (String × String)) : FileDeps :=
  sourceFiles.foldl
    (fun acc f =>
      if !(strEnds f.path ".css") then
        let fd := analyzeFile f.content packageMap regMap
        ⟨setUnion acc.npm fd.npm, setUnion acc.registry fd.registry,
         setUnion acc.unresolved fd.unresolved⟩
      else acc)
    emptyDeps

def entityFiles (categoryName entityName : String) (cfg : CategoryCfg)
    (sourceFiles : List SrcFile) : List RegistryFile :=
  sourceFiles.map (fun f =>
    { path := "registry/" ++ categoryName ++ "/" ++ entityName ++ "/" ++ basename f.path
      type := inferFileType f.path cfg.fileType
      target := cfg.targetDir ++ "/" ++ entityName ++ "/" ++ basename f.path })

/-- `processEntity`. -/
def processEntity (categoryName entityName : String) (files : List SrcFile) (cfg : CategoryCfg)
    (packageMap regMap : List (String × String)) : Option RegistryItem :=
  let sourceFiles := files.filter (fun f => isSourceFile f.path)
  if sourceFiles.isEmpty then none
  else
    let deps := entityDeps sourceFiles packageMap regMap
    let reg := setDelete deps.registry (toKebabCase entityName)
    some
      { name := toKebabCase entityName
        type := cfg.itemType
        title := toTitle entityName
        description := none
        dependencies := if 0 < deps.npm.length then some (sortStrings deps.npm) else none
        registryDependencies := if 0 < reg.length then some (sortStrings reg) else none
        files := entityFiles categoryName entityName cfg sourceFiles }

-- ---------------------------------------------------------------------------
-- Main run
-- ---------------------------------------------------------------------------

structure CliOptions where
  noOverride : Bool
  targets : List String
deriving DecidableEq, Repr

/-- The observable outcome of one run: abort before any processing
(missing registry root, exit code 1), stop without writing because no
configured category directory is present (exit code 0), or complete and
write exactly one manifest (exit code 0), together with the number of
entities skipped by `--no-override`. -/
inductive RunResult where
  | fatalMissingRoot
  | exitNoCategories
  | wrote (r : Registry) (skipped : Nat)
deriving DecidableEq, Repr

def RunResult.wroteOutput : RunResult → Bool
  | RunResult.wrote _ _ => true
  | _ => false

def RunResult.exitCode : RunResult → Nat
  | RunResult.fatalMissingRoot => 1
  | _ => 0

def RunResult.itemsD : RunResult → List RegistryItem
  | RunResult.wrote r _ => r.items
  | _ => []

def RunResult.schemaD : RunResult → String
  | RunResult.wrote r _ => r.schema
  | _ => ""

/-- `buildRegistryEntityMap`: `"category/dirName" ↦ toKebabCase dirName`
for every entity directory of every configured category present on disk. -/
def buildRegistryEntityMap (fs : FS) : List (String × String) :=
  ENTITY_CATEGORIES.foldl
    (fun m c =>
      match fs.categoryDirs.find? (fun cd => cd.name == c.1) with
      | none => m
      | some cd =>
        cd.entities.foldl (fun m2 e => alInsert m2 (c.1 ++ "/" ++ e.name) (toKebabCase e.name)) m)
    []

/-- `new Map(existingRegistry.items.map((item) => [item.name, item]))`. -/
def existingItemMapOf (existing : Option Registry) : List (String × RegistryItem) :=
  ((existing.map (fun r => r.items)).getD []).foldl (fun m it => alInsert m it.name it) []

/-- The configured categories whose directory is present under the root. -/
def activeCategories (fs : FS) : List (String × CategoryCfg) :=
  ENTITY_CATEGORIES.filter (fun c => (fs.categoryDirs.map (fun cd => cd.name)).contains c.1)

/-- The entity directories of one active category, restricted to the
requested targets. -/
def selEntsOfCat (opts : CliOptions) (fs : FS) (c : String × CategoryCfg) : List EntityDir :=
  (((fs.categoryDirs.find? (fun cd => cd.name == c.1)).map (fun cd => cd.entities)).getD []).filter
    (fun e =>
      opts.targets.isEmpty || opts.targets.contains (c.1 ++ "/" ++ e.name) ||
      opts.targets.contains e.name)

/-- Body of the per-entity loop of `main`: skip when `--no-override` is
set and the entity name is a key of the persisted item map; otherwise
process the entity and, when an item is produced, store it in the
updated item map under the entity's directory name. -/
def entityStep (opts : CliOptions) (existingMap : List (String × RegistryItem))
    (c : String × CategoryCfg) (packageMap regMap : List (String × String))
    (m : List (String × RegistryItem)) (e : EntityDir) : List (String × RegistryItem) :=
  if opts.noOverride && (alGet existingMap e.name).isSome then m
  else
    match processEntity c.1 e.name e.files c.2 packageMap regMap with
    | none => m
    | some item => alInsert m e.name item

/-- The updated item map after the two nested loops of `main`. -/
def finalItemMap (opts : CliOptions) (fs : FS) (packageMap regMap : List (String × String))
    (existingMap : List (String × RegistryItem)) : List (String × RegistryItem) :=
  (activeCategories fs).foldl
    (fun m c => (selEntsOfCat opts fs c).foldl (entityStep opts existingMap c packageMap regMap) m)
    existingMap

/-- All entities selected this run, paired with their category, in
processing order (before the `--no-override` skip). -/
def selectedEntities (opts : CliOptions) (fs : FS) : List ((String × CategoryCfg) × EntityDir) :=
  (activeCategories fs).flatMap (fun c => (selEntsOfCat opts fs c).map (fun e => (c, e)))

def skipEligible (opts : CliOptions) (existingMap : List (String × RegistryItem))
    (ce : (String × CategoryCfg) × EntityDir) : Bool :=
  opts.noOverride && (alGet existingMap ce.2.name).isSome

/-- The `(entityName, freshItem)` writes performed on the updated item
map, in order. -/
def processedEntries (opts : CliOptions) (fs : FS) (packageMap regMap : List (String × String))
    (existingMap : List (String × RegistryItem)) : List (String × RegistryItem) :=
  (selectedEntities opts fs).filterMap (fun ce =>
    if skipEligible opts existingMap ce then none
    else (processEntity ce.1.1 ce.2.name ce.2.files ce.1.2 packageMap regMap).map
      (fun it => (ce.2.name, it)))

/-- `summary.skipped`. -/
def skippedCount (opts : CliOptions) (fs : FS) (existingMap : List (String × RegistryItem)) : Nat :=
  ((selectedEntities opts fs).filter (skipEligible opts existingMap)).length

/-- `main`, as a function of the parsed options, the directory tree, the
parsed `package.json` and the parsed persisted manifest (absent when the
file is missing or unparseable). -/
def runMain (opts : CliOptions) (fs : FS) (pkg : PackageJson) (existing : Option Registry) :
    RunResult :=
  if !fs.rootExists then RunResult.fatalMissingRoot
  else
    let packageMap := buildPackageMap pkg
    let regMap := buildRegistryEntityMap fs
    let existingMap := existingItemMapOf existing
    if (activeCategories fs).isEmpty then RunResult.exitNoCategories
    else
      RunResult.wrote
        { schema := SCHEMA_URL
          name := (existing.map (fun r => r.name)).getD REGISTRY_NAME
          homepage := (existing.map (fun r => r.homepage)).getD REGISTRY_HOMEPAGE
          items := (finalItemMap opts fs packageMap regMap existingMap).map (fun e => e.2) }
        (skippedCount opts fs existingMap)

-- ---------------------------------------------------------------------------
-- Concrete scenarios used to exercise the theorems below
-- ---------------------------------------------------------------------------

def optionsPlain : CliOptions := ⟨false, []⟩

def pkgEmpty : PackageJson := ⟨none, none, none⟩

def cfgComponents : CategoryCfg := ⟨"registry:component", "registry:component", "components"⟩

/-- A persisted item whose name is the kebab-cased form of the `MyButton`
directory. -/
def exOldItem : RegistryItem :=
  { name := "my-button", type := "registry:component", title := "Old Title",
    description := some "old", dependencies := some ["old@1.0.0"],
    registryDependencies := some ["old-dep"],
    files := [⟨"registry/components/my-button/old.tsx", "registry:component",
              "components/my-button/old.tsx"⟩] }

def exOldRegistry : Registry :=
  { schema := "https://ui.shadcn.com/schema/registry.json", name := "n", homepage := "h",
    items := [exOldItem] }

/-- A tree with one entity whose directory name is not kebab-cased. -/
def exFsCamel : FS :=
  ⟨true, [⟨"components",
    [⟨"MyButton", [⟨"registry/components/MyButton/MyButton.tsx", ""⟩]⟩]⟩]⟩

/-- A tree with one kebab-named `components/button` entity. -/
def exFsButton : FS :=
  ⟨true, [⟨"components",
    [⟨"button", [⟨"registry/components/button/button.tsx",
      "import * as React from 'react'\n"⟩]⟩]⟩]⟩

def exPkgReact : PackageJson := ⟨some [("react", "18.2.0")], none, none⟩

def exOldButton : RegistryItem :=
  { name := "button", type := "registry:component", title := "Button",
    description := none, dependencies := some ["stale@0.0.1"],
    registryDependencies := none,
    files := [⟨"registry/components/button/stale.tsx", "registry:component",
              "components/button/stale.tsx"⟩] }

def exOtherItem : RegistryItem :=
  { name := "other", type := "registry:hook", title := "Other",
    description := none, dependencies := none, registryDependencies := none,
    files := [⟨"registry/hooks/other/other.ts", "registry:hook", "hooks/other/other.ts"⟩] }

def exButtonRegistry : Registry :=
  { schema := "https://ui.shadcn.com/schema/registry.json", name := "n", homepage := "h",
    items := [exOldButton, exOtherItem] }

/-- The item `exFsButton`'s entity freshly computes. -/
def exFreshButton : RegistryItem :=
  { name := "button", type := "registry:component", title := "Button",
    description := none, dependencies := some ["react@18.2.0"],
    registryDependencies := none,
    files := [⟨"registry/components/button/button.tsx", "registry:component",
              "components/button/button.tsx"⟩] }

/-- A persisted manifest with non-default metadata. -/
def exCustomMeta : Registry :=
  { schema := "custom-schema", name := "custom-name", homepage := "custom-home", items := [] }

/-- A root whose only category directory is present but empty. -/
def exFsEmptyComponents : FS := ⟨true, [⟨"components", []⟩]⟩

/-- A root with no recognised category directory. -/
def exFsNoCategories : FS := ⟨true, [⟨"misc", []⟩]⟩

/-- An entity directory holding only an excluded test file. -/
def exFsTestOnly : FS :=
  ⟨true, [⟨"components",
    [⟨"button", [⟨"registry/components/button/button.test.tsx", "export {}\n"⟩]⟩]⟩]⟩

/-- package.json with one name in every section and one name in two. -/
def exPkgOverlap : PackageJson :=
  ⟨some [("react", "18.0.0"), ("zod", "3.0.0")],
   some [("react", "18.1.0"), ("vitest", "1.0.0")],
   some [("react", "18.2.0")]⟩

/-- Source importing two packages and one registry entity. -/
def exCardFile : SrcFile :=
  ⟨"registry/components/card/card.tsx",
   "import * as React from 'react'\nimport { z } from 'zod'\nimport { helper } from '@/components/card/helpers'\nimport { cn } from '@/lib/utils'\n"⟩

def exCardRegMap : List (String × String) :=
  [("components/card", "card"), ("lib/utils", "utils")]

def exCardPkgMap : List (String × String) :=
  [("react", "react@18.0.0"), ("zod", "zod@3.0.0")]

/-- The item `processEntity` computes for the `exCardFile` scenario. -/
def exCardItem : RegistryItem :=
  { name := "card", type := "registry:component", title := "Card",
    description := none,
    dependencies := some ["react@18.0.0", "zod@3.0.0"],
    registryDependencies := some ["utils"],
    files := [⟨"registry/components/card/card.tsx", "registry:component",
              "components/card/card.tsx"⟩] }

-- ---------------------------------------------------------------------------
-- Order lemmas for the string sort model
-- ---------------------------------------------------------------------------

theorem listCharLt_trans :
    ∀ a b c : List Char, listCharLt a b = true → listCharLt b c = true → listCharLt a c = true
  | [], [], _, hab, _ => by simp [listCharLt] at hab
  | [], _ :: _, [], _, hbc => by simp [listCharLt] at hbc
  | [], _ :: _, _ :: _, _, _ => by simp [listCharLt]
  | _ :: _, [], _, hab, _ => by simp [listCharLt] at hab
  | _ :: _, _ :: _, [], _, hbc => by simp [listCharLt] at hbc
  | a :: as, b :: bs, c :: cs, hab, hbc => by
    simp only [listCharLt] at hab hbc ⊢
    by_cases h1 : a.toNat < b.toNat
    · by_cases h2 : b.toNat < c.toNat
      · have h3 : a.toNat < c.toNat := by omega
        simp [h3]
      · by_cases h2' : c.toNat < b.toNat
        · simp [h2, h2'] at hbc
        · have h3 : a.toNat < c.toNat := by omega
          simp [h3]
    · by_cases h1' : b.toNat < a.toNat
      · simp [h1, h1'] at hab
      · simp [h1, h1'] at hab
        by_cases h2 : b.toNat < c.toNat
        · have h3 : a.toNat < c.toNat := by omega
          simp [h3]
        · by_cases h2' : c.toNat < b.toNat
          · simp [h2, h2'] at hbc
          · simp [h2, h2'] at hbc
            have h3 : ¬ a.toNat < c.toNat := by omega
            have h3' : ¬ c.toNat < a.toNat := by omega
            simp [h3, h3']
            exact listCharLt_trans as bs cs hab hbc

theorem charToNat_eq_of_not_lt {a b : Char} (h1 : ¬ a.toNat < b.toNat)
    (h2 : ¬ b.toNat < a.toNat) : a = b := by
  have hn : a.toNat = b.toNat := by omega
  exact Char.ext (UInt32.ext hn)

theorem listCharLt_total :
    ∀ a b : List Char, listCharLt a b = true ∨ listCharLt b a = true ∨ a = b
  | [], [] => Or.inr (Or.inr rfl)
  | [], _ :: _ => Or.inl (by simp [listCharLt])
  | _ :: _, [] => Or.inr (Or.inl (by simp [listCharLt]))
  | a :: as, b :: bs => by
    by_cases h1 : a.toNat < b.toNat
    · exact Or.inl (by simp [listCharLt, h1])
    · by_cases h2 : b.toNat < a.toNat
      · refine Or.inr (Or.inl ?_)
        simp [listCharLt, h2]
      · have hab : a = b := charToNat_eq_of_not_lt h1 h2
        rcases listCharLt_total as bs with h | h | h
        · exact Or.inl (by simp [listCharLt, h1, h2, h])
        · refine Or.inr (Or.inl ?_)
          subst hab
          simp [listCharLt, h1, h2, h]
        · exact Or.inr (Or.inr (by rw [hab, h]))

theorem listCharLt_irrefl : ∀ a : List Char, listCharLt a a = false
  | [] => by simp [listCharLt]
  | a :: as => by simp [listCharLt, listCharLt_irrefl as]

theorem strEq_of_data_eq {a b : String} (h : a.data = b.data) : a = b :=
  congrArg String.mk h

theorem strLeP_trans : ∀ a b c : String, strLeP a b → strLeP b c → strLeP a c := by
  intro a b c hab hbc
  simp only [strLeP, strLe, Bool.or_eq_true, beq_iff_eq] at hab hbc ⊢
  rcases hab with hab | hab
  · rcases hbc with hbc | hbc
    · exact Or.inl (listCharLt_trans a.data b.data c.data hab hbc)
    · subst hbc
      exact Or.inl hab
  · subst hab
    exact hbc

theorem strLeP_total : ∀ a b : String, strLeP a b ∨ strLeP b a := by
  intro a b
  rcases listCharLt_total a.data b.data with h | h | h
  · exact Or.inl (by simp [strLeP, strLe, strLt, h])
  · exact Or.inr (by simp [strLeP, strLe, strLt, h])
  · exact Or.inl (by simp [strLeP, strLe, strEq_of_data_eq h])

theorem strLt_of_strLe_of_ne {a b : String} (h : strLeP a b) (hne : a ≠ b) : strLtP a b := by
  simp only [strLeP, strLe, Bool.or_eq_true, beq_iff_eq] at h
  rcases h with h | h
  · exact h
  · exact absurd h hne

theorem sortStrings_sorted (l : List String) : (sortStrings l).Sorted strLeP := by
  haveI : IsTotal String strLeP := ⟨strLeP_total⟩
  haveI : IsTrans String strLeP := ⟨strLeP_trans⟩
  exact List.sorted_insertionSort strLeP l

theorem sortStrings_perm (l : List String) : (sortStrings l).Perm l :=
  List.perm_insertionSort strLeP l

theorem sortStrings_nodup {l : List String} (h : l.Nodup) : (sortStrings l).Nodup :=
  ((sortStrings_perm l).nodup_iff).mpr h

theorem sortStrings_ne_nil {l : List String} (h : l ≠ []) : sortStrings l ≠ [] := by
  intro hc
  apply h
  have := (sortStrings_perm l).length_eq
  rw [hc] at this
  exact List.length_eq_zero.mp this.symm

theorem sortStrings_sorted_strict {l : List String} (h : l.Nodup) :
    (sortStrings l).Sorted strLtP := by
  have h1 : (sortStrings l).Sorted strLeP := sortStrings_sorted l
  have h2 : (sortStrings l).Nodup := sortStrings_nodup h
  exact (List.Pairwise.and h1 h2).imp (fun hab => strLt_of_strLe_of_ne hab.1 hab.2)

-- ---------------------------------------------------------------------------
-- Set model lemmas
-- ---------------------------------------------------------------------------

theorem setAdd_nodup {s : List String} (h : s.Nodup) (x : String) : (setAdd s x).Nodup := by
  by_cases hc : x ∈ s
  · simp [setAdd, hc, h]
  · simp [setAdd, hc, h, List.nodup_append]

theorem setUnion_nodup {s : List String} (h : s.Nodup) (t : List String) :
    (setUnion s t).Nodup := by
  induction t generalizing s with
  | nil => exact h
  | cons a t ih => exact ih (setAdd_nodup h a)

theorem setDelete_nodup {s : List String} (h : s.Nodup) (x : String) :
    (setDelete s x).Nodup := List.Nodup.filter _ h

theorem mem_setDelete_self (s : List String) (x : String) : x ∉ setDelete s x := by
  intro hmem
  have := List.of_mem_filter hmem
  simp at this

theorem setDelete_idem (s : List String) (x : String) :
    setDelete (setDelete s x) x = setDelete s x := by
  unfold setDelete
  rw [List.filter_filter]
  simp

-- ---------------------------------------------------------------------------
-- Map model lemmas
-- ---------------------------------------------------------------------------

theorem alGet_append {α : Type} (m m' : List (String × α)) (k : String) :
    alGet (m ++ m') k = optOr (alGet m k) (alGet m' k) := by
  unfold alGet
  rw [List.find?_append]
  cases m.find? (fun e => e.1 == k) <;> simp [optOr, Option.or]

theorem alGet_alInsert {α : Type} (m : List (String × α)) (k k' : String) (v : α) :
    alGet (alInsert m k v) k' = if k' = k then some v else alGet m k' := by
  unfold alInsert
  by_cases hany : m.any (fun e => e.1 == k) = true
  · rw [if_pos hany]
    unfold alGet
    rw [List.find?_map]
    by_cases hk : k' = k
    · subst hk
      have hpred : ((fun (e : String × α) => e.1 == k') ∘ fun e => if e.1 == k' then (k', v) else e)
          = fun e => e.1 == k' := by
        funext e
        by_cases he : e.1 = k' <;> simp [Function.comp, he]
      rw [hpred]
      have hne : m.find? (fun e => e.1 == k') ≠ none := by
        intro hc
        rw [List.find?_eq_none] at hc
        rw [List.any_eq_true] at hany
        obtain ⟨x, hx, hpx⟩ := hany
        exact hc x hx hpx
      obtain ⟨e0, he0⟩ := Option.ne_none_iff_exists'.mp hne
      have he0k : e0.1 = k' := by simpa using List.find?_some he0
      rw [he0]
      simp [he0k]
    · have hpred : ((fun (e : String × α) => e.1 == k') ∘ fun e => if e.1 == k then (k, v) else e)
          = fun e => e.1 == k' := by
        funext e
        by_cases he : e.1 = k <;> simp [Function.comp, he]
      rw [hpred]
      cases hfind : m.find? (fun e => e.1 == k') with
      | none => simp [hk]
      | some e0 =>
        have he0k : e0.1 = k' := by simpa using List.find?_some hfind
        have hf : (e0.1 == k) = false := by
          rw [he0k]
          simpa using hk
        simp [hk, hf, he0k]
  · rw [if_neg hany]
    rw [alGet_append]
    have hnone : alGet m k = none := by
      unfold alGet
      have hfn : m.find? (fun e => e.1 == k) = none := by
        rw [List.find?_eq_none]
        intro x hx hpx
        exact hany (List.any_eq_true.mpr ⟨x, hx, hpx⟩)
      rw [hfn]
      rfl
    by_cases hk : k' = k
    · subst hk
      rw [hnone]
      simp [alGet, optOr, List.find?]
    · have hsing : alGet [(k, v)] k' = none := by
        have : (k == k') = false := by
          simp
          intro hc
          exact hk hc.symm
        simp [alGet, List.find?, this]
      rw [hsing]
      cases alGet m k' <;> simp [optOr, hk]

theorem optOr_none {α : Type} (a : Option α) : optOr a none = a := by
  cases a <;> rfl

theorem alGet_foldl_insert {α β : Type} (κ : β → String) (ν : β → α) :
    ∀ (l : List β) (m0 : List (String × α)) (k : String),
    alGet (l.foldl (fun m e => alInsert m (κ e) (ν e)) m0) k
      = optOr ((l.reverse.find? (fun e => κ e == k)).map ν) (alGet m0 k)
  | [], m0, k => by simp [optOr]
  | a :: t, m0, k => by
    simp only [List.foldl_cons, List.reverse_cons]
    rw [alGet_foldl_insert κ ν t (alInsert m0 (κ a) (ν a)) k]
    rw [alGet_alInsert]
    rw [List.find?_append]
    cases hf : t.reverse.find? (fun e => κ e == k) with
    | some e => simp [optOr, Option.or]
    | none =>
      by_cases hka : κ a = k
      · simp [optOr, Option.or, List.find?, hka]
      · have hfb : (κ a == k) = false := by simp [hka]
        have hk2 : ¬ k = κ a := fun hc => hka hc.symm
        simp [optOr, Option.or, List.find?, hfb, hk2]

theorem foldl_step_filterMap {β γ δ : Type} (g : β → Option γ) (step : δ → γ → δ)
    (f : δ → β → δ) (hf : ∀ m e, f m e = (g e).elim m (step m)) :
    ∀ (l : List β) (m0 : δ), l.foldl f m0 = (l.filterMap g).foldl step m0
  | [], _ => rfl
  | b :: t, m0 => by
    simp only [List.foldl_cons, List.filterMap_cons, hf]
    cases g b <;> simp [foldl_step_filterMap g step f hf t, Option.elim]

theorem foldl_flatMap {β γ δ : Type} (h : β → List γ) (step : δ → γ → δ) :
    ∀ (l : List β) (m0 : δ),
    (l.flatMap h).foldl step m0 = l.foldl (fun m b => (h b).foldl step m) m0
  | [], _ => rfl
  | b :: t, m0 => by
    simp only [List.flatMap_cons, List.foldl_append, List.foldl_cons]
    exact foldl_flatMap h step t _

theorem find?_eq_head_filter {β : Type} (p : β → Bool) :
    ∀ l : List β, l.find? p = (l.filter p).head?
  | [] => rfl
  | b :: t => by
    by_cases h : p b
    · rw [List.find?_cons_of_pos _ h, List.filter_cons_of_pos h]
      rfl
    · rw [List.find?_cons_of_neg _ (by simpa using h), List.filter_cons_of_neg (by simpa using h)]
      exact find?_eq_head_filter p t

theorem find?_reverse_eq_of_nodup_keys {β : Type} (κ : β → String) (k : String) :
    ∀ l : List β, (l.map κ).Nodup →
      l.reverse.find? (fun e => κ e == k) = l.find? (fun e => κ e == k)
  | [], _ => rfl
  | b :: t, hnd => by
    simp only [List.map_cons, List.nodup_cons] at hnd
    obtain ⟨hbk, hnd'⟩ := hnd
    simp only [List.reverse_cons]
    rw [List.find?_append]
    by_cases hpb : κ b = k
    · have hnone : t.reverse.find? (fun e => κ e == k) = none := by
        rw [List.find?_eq_none]
        intro x hx
        simp only [beq_iff_eq]
        intro hc
        apply hbk
        rw [← hpb] at hc
        rw [← hc]
        exact List.mem_map_of_mem κ (List.mem_reverse.mp hx)
      rw [hnone]
      simp [Option.or, List.find?, hpb]
    · have hfb : (κ b == k) = false := by simp [hpb]
      rw [find?_reverse_eq_of_nodup_keys κ k t hnd']
      simp [Option.or, List.find?, hfb]
      cases t.find? (fun e => κ e == k) <;> rfl

theorem mem_map_snd_of_alGet {α : Type} (m : List (String × α)) (k : String) (v : α)
    (h : alGet m k = some v) : v ∈ m.map (fun e => e.2) := by
  unfold alGet at h
  cases hf : m.find? (fun e => e.1 == k) with
  | none => rw [hf] at h; simp at h
  | some e =>
    rw [hf] at h
    simp only [Option.map_some'] at h
    obtain rfl : e.2 = v := Option.some.inj h
    exact List.mem_map_of_mem _ (List.mem_of_find?_eq_some hf)

-- ---------------------------------------------------------------------------
-- Structure of the main merge loop
-- ---------------------------------------------------------------------------

theorem foldl_congr_fun {β δ : Type} (f g : δ → β → δ) (hfg : ∀ m b, f m b = g m b) :
    ∀ (l : List β) (m0 : δ), l.foldl f m0 = l.foldl g m0
  | [], _ => rfl
  | b :: t, m0 => by
    rw [List.foldl_cons, List.foldl_cons, hfg, foldl_congr_fun f g hfg t]

theorem entityStep_eq_elim (opts : CliOptions) (em : List (String × RegistryItem))
    (pm rm : List (String × String)) :
    ∀ (m : List (String × RegistryItem)) (ce : (String × CategoryCfg) × EntityDir),
    entityStep opts em ce.1 pm rm m ce.2
      = (if skipEligible opts em ce then none
         else (processEntity ce.1.1 ce.2.name ce.2.files ce.1.2 pm rm).map
           (fun it => (ce.2.name, it))).elim m (fun kv => alInsert m kv.1 kv.2) := by
  intro m ce
  obtain ⟨c, e⟩ := ce
  unfold entityStep skipEligible
  by_cases h : (opts.noOverride && (alGet em e.name).isSome) = true
  · simp [h]
  · simp only [Bool.not_eq_true] at h
    simp only [h, Bool.false_eq_true, if_false]
    cases processEntity c.1 e.name e.files c.2 pm rm <;> simp [Option.elim]

theorem finalItemMap_eq_foldl (opts : CliOptions) (fs : FS) (pm rm : List (String × String))
    (em : List (String × RegistryItem)) :
    finalItemMap opts fs pm rm em
      = (processedEntries opts fs pm rm em).foldl (fun m kv => alInsert m kv.1 kv.2) em := by
  unfold processedEntries
  rw [← foldl_step_filterMap
       (fun ce => if skipEligible opts em ce then none
                  else (processEntity ce.1.1 ce.2.name ce.2.files ce.1.2 pm rm).map
                    (fun it => (ce.2.name, it)))
       (fun m kv => alInsert m kv.1 kv.2)
       (fun m ce => entityStep opts em ce.1 pm rm m ce.2)
       (entityStep_eq_elim opts em pm rm)]
  unfold selectedEntities
  rw [foldl_flatMap]
  unfold finalItemMap
  apply foldl_congr_fun
  intro m c
  rw [List.foldl_map]

theorem alGet_finalItemMap (opts : CliOptions) (fs : FS) (pm rm : List (String × String))
    (em : List (String × RegistryItem)) (k : String) :
    alGet (finalItemMap opts fs pm rm em) k
      = optOr (((processedEntries opts fs pm rm em).reverse.find? (fun kv => kv.1 == k)).map
          (fun kv => kv.2)) (alGet em k) := by
  rw [finalItemMap_eq_foldl]
  exact alGet_foldl_insert (fun (kv : String × RegistryItem) => kv.1)
    (fun (kv : String × RegistryItem) => kv.2) _ em k

theorem runMain_wrote_inv (opts : CliOptions) (fs : FS) (pkg : PackageJson)
    (existing : Option Registry) (r : Registry) (n : Nat)
    (h : runMain opts fs pkg existing = RunResult.wrote r n) :
    r.items = (finalItemMap opts fs (buildPackageMap pkg) (buildRegistryEntityMap fs)
        (existingItemMapOf existing)).map (fun e => e.2)
    ∧ n = skippedCount opts fs (existingItemMapOf existing)
    ∧ r.schema = SCHEMA_URL
    ∧ r.name = (existing.map (fun x => x.name)).getD REGISTRY_NAME
    ∧ r.homepage = (existing.map (fun x => x.homepage)).getD REGISTRY_HOMEPAGE := by
  unfold runMain at h
  by_cases h1 : fs.rootExists
  · rw [h1] at h
    simp only [Bool.not_true, Bool.false_eq_true, if_false] at h
    by_cases h2 : (activeCategories fs).isEmpty
    · rw [h2] at h
      simp at h
    · simp only [Bool.not_eq_true] at h2
      rw [h2] at h
      simp only [Bool.false_eq_true, if_false, RunResult.wrote.injEq] at h
      obtain ⟨hr, hn⟩ := h
      rw [← hr, ← hn]
      exact ⟨rfl, rfl, rfl, rfl, rfl⟩
  · simp only [Bool.not_eq_true] at h1
    rw [h1] at h
    simp at h

theorem runMain_itemsD (opts : CliOptions) (fs : FS) (pkg : PackageJson)
    (existing : Option Registry) (hroot : fs.rootExists = true)
    (hcat : (activeCategories fs).isEmpty = false) :
    (runMain opts fs pkg existing).itemsD
      = (finalItemMap opts fs (buildPackageMap pkg) (buildRegistryEntityMap fs)
          (existingItemMapOf existing)).map (fun e => e.2) := by
  unfold runMain
  rw [hroot, hcat]
  simp [RunResult.itemsD]

-- ---------------------------------------------------------------------------
-- C1: merge semantics of a run without --no-override
-- ---------------------------------------------------------------------------

/-- C1 (amended): with skip-existing inactive, the merge is keyed by the
entity's raw directory name (not its kebab-cased canonical name): when
exactly one processed entity wrote the key `n`, the final item map holds
that freshly computed item at `n` — no field of an identically keyed
persisted item survives — and it appears in the written manifest; a key
no processed entity wrote keeps its persisted item, which appears in the
output verbatim. -/
theorem merge_overwrites_by_directory_name
    (opts : CliOptions) (fs : FS) (pkg : PackageJson) (existing : Option Registry)
    (n : String) (it : RegistryItem)
    (hno : opts.noOverride = false)
    (hroot : fs.rootExists = true) (hcat : (activeCategories fs).isEmpty = false) :
    ((processedEntries opts fs (buildPackageMap pkg) (buildRegistryEntityMap fs)
        (existingItemMapOf existing)).filter (fun kv => kv.1 == n) = [(n, it)] →
      alGet (finalItemMap opts fs (buildPackageMap pkg) (buildRegistryEntityMap fs)
        (existingItemMapOf existing)) n = some it
      ∧ it ∈ (runMain opts fs pkg existing).itemsD)
    ∧ ((processedEntries opts fs (buildPackageMap pkg) (buildRegistryEntityMap fs)
        (existingItemMapOf existing)).all (fun kv => !(kv.1 == n)) = true →
      alGet (finalItemMap opts fs (buildPackageMap pkg) (buildRegistryEntityMap fs)
        (existingItemMapOf existing)) n = alGet (existingItemMapOf existing) n
      ∧ ∀ v, alGet (existingItemMapOf existing) n = some v →
          v ∈ (runMain opts fs pkg existing).itemsD) := by
  constructor
  · intro hfilter
    have hfind : (processedEntries opts fs (buildPackageMap pkg) (buildRegistryEntityMap fs)
        (existingItemMapOf existing)).reverse.find? (fun kv => kv.1 == n) = some (n, it) := by
      rw [find?_eq_head_filter, List.filter_reverse, hfilter]
      rfl
    have hget : alGet (finalItemMap opts fs (buildPackageMap pkg) (buildRegistryEntityMap fs)
        (existingItemMapOf existing)) n = some it := by
      rw [alGet_finalItemMap, hfind]
      rfl
    refine ⟨hget, ?_⟩
    rw [runMain_itemsD opts fs pkg existing hroot hcat]
    exact mem_map_snd_of_alGet _ n it hget
  · intro hall
    have hfind : (processedEntries opts fs (buildPackageMap pkg) (buildRegistryEntityMap fs)
        (existingItemMapOf existing)).reverse.find? (fun kv => kv.1 == n) = none := by
      rw [List.find?_eq_none]
      intro kv hkv
      have := List.all_eq_true.mp hall kv (List.mem_reverse.mp hkv)
      simp at this
      simp [this]
    have hget : alGet (finalItemMap opts fs (buildPackageMap pkg) (buildRegistryEntityMap fs)
        (existingItemMapOf existing)) n = alGet (existingItemMapOf existing) n := by
      rw [alGet_finalItemMap, hfind]
      rfl
    refine ⟨hget, ?_⟩
    intro v hv
    rw [runMain_itemsD opts fs pkg existing hroot hcat]
    exact mem_map_snd_of_alGet _ n v (hget.trans hv)

/-- C1, counterexample to the original claim: entity directory `MyButton`
(canonical name `my-button`) is processed in a run without
`--no-override`, yet the persisted item named `my-button` — its file
list included — survives verbatim in the written manifest, because the
merge keys on the raw directory name. -/
theorem merge_canonical_key_counterexample :
    (processedEntries optionsPlain exFsCamel (buildPackageMap pkgEmpty)
        (buildRegistryEntityMap exFsCamel)
        (existingItemMapOf (some exOldRegistry))).map (fun kv => kv.1) = ["MyButton"]
    ∧ toKebabCase "MyButton" = "my-button"
    ∧ exOldItem.name = "my-button"
    ∧ exOldItem ∈ (runMain optionsPlain exFsCamel pkgEmpty (some exOldRegistry)).itemsD := by
  decide

/-- Witness for `merge_overwrites_by_directory_name` at a concrete run. -/
theorem merge_overwrites_witness :
    (alGet (finalItemMap optionsPlain exFsButton (buildPackageMap exPkgReact)
        (buildRegistryEntityMap exFsButton)
        (existingItemMapOf (some exButtonRegistry))) "button" = some exFreshButton
      ∧ exFreshButton ∈ (runMain optionsPlain exFsButton exPkgReact
          (some exButtonRegistry)).itemsD)
    ∧ (alGet (finalItemMap optionsPlain exFsButton (buildPackageMap exPkgReact)
        (buildRegistryEntityMap exFsButton)
        (existingItemMapOf (some exButtonRegistry))) "other"
          = alGet (existingItemMapOf (some exButtonRegistry)) "other"
      ∧ exOtherItem ∈ (runMain optionsPlain exFsButton exPkgReact
          (some exButtonRegistry)).itemsD) := by
  have h := merge_overwrites_by_directory_name optionsPlain exFsButton exPkgReact
    (some exButtonRegistry) "button" exFreshButton rfl rfl rfl
  have h2 := merge_overwrites_by_directory_name optionsPlain exFsButton exPkgReact
    (some exButtonRegistry) "other" exFreshButton rfl rfl rfl
  refine ⟨h.1 (by decide), ?_⟩
  have hother := h2.2 (by decide)
  exact ⟨hother.1, hother.2 exOtherItem (by decide)⟩

-- ---------------------------------------------------------------------------
-- C5: --no-override keeps persisted items untouched
-- ---------------------------------------------------------------------------

/-- C5: with `--no-override` set, no processed entity's key is present in
the persisted item map (entities already present are never reprocessed),
every persisted item survives at its key and appears verbatim in the
written manifest, and the skip counter counts exactly the selected
entities whose name was already present. -/
theorem skip_existing_preserves_items
    (opts : CliOptions) (fs : FS) (pkg : PackageJson) (existing : Option Registry)
    (hno : opts.noOverride = true) :
    (∀ kv ∈ processedEntries opts fs (buildPackageMap pkg) (buildRegistryEntityMap fs)
        (existingItemMapOf existing), alGet (existingItemMapOf existing) kv.1 = none)
    ∧ (∀ k v, alGet (existingItemMapOf existing) k = some v →
        alGet (finalItemMap opts fs (buildPackageMap pkg) (buildRegistryEntityMap fs)
          (existingItemMapOf existing)) k = some v
        ∧ (fs.rootExists = true → (activeCategories fs).isEmpty = false →
            v ∈ (runMain opts fs pkg existing).itemsD))
    ∧ skippedCount opts fs (existingItemMapOf existing)
        = ((selectedEntities opts fs).filter
            (fun ce => (alGet (existingItemMapOf existing) ce.2.name).isSome)).length := by
  have hmain : ∀ kv ∈ processedEntries opts fs (buildPackageMap pkg)
      (buildRegistryEntityMap fs) (existingItemMapOf existing),
      alGet (existingItemMapOf existing) kv.1 = none := by
    intro kv hkv
    unfold processedEntries at hkv
    obtain ⟨ce, hce, hg⟩ := List.mem_filterMap.mp hkv
    by_cases hskip : skipEligible opts (existingItemMapOf existing) ce = true
    · rw [if_pos hskip] at hg
      exact absurd hg (by simp)
    · rw [if_neg hskip] at hg
      unfold skipEligible at hskip
      rw [hno] at hskip
      simp only [Bool.true_and, Bool.not_eq_true] at hskip
      have hskip2 : alGet (existingItemMapOf existing) ce.2.name = none := by
        cases halg : alGet (existingItemMapOf existing) ce.2.name with
        | none => rfl
        | some w => rw [halg] at hskip; simp at hskip
      cases hpe : processEntity ce.1.1 ce.2.name ce.2.files ce.1.2 (buildPackageMap pkg)
          (buildRegistryEntityMap fs) with
      | none => rw [hpe] at hg; exact absurd hg (by simp)
      | some it =>
        rw [hpe] at hg
        simp only [Option.map_some'] at hg
        obtain rfl := Option.some.inj hg
        exact hskip2
  refine ⟨hmain, ?_, ?_⟩
  · intro k v hv
    have hfind : (processedEntries opts fs (buildPackageMap pkg) (buildRegistryEntityMap fs)
        (existingItemMapOf existing)).reverse.find? (fun kv => kv.1 == k) = none := by
      rw [List.find?_eq_none]
      intro kv hkv
      simp only [beq_iff_eq]
      intro hc
      have := hmain kv (List.mem_reverse.mp hkv)
      rw [hc] at this
      rw [this] at hv
      exact absurd hv (by simp)
    have hget : alGet (finalItemMap opts fs (buildPackageMap pkg) (buildRegistryEntityMap fs)
        (existingItemMapOf existing)) k = some v := by
      rw [alGet_finalItemMap, hfind]
      exact hv
    refine ⟨hget, ?_⟩
    intro hroot hcat
    rw [runMain_itemsD opts fs pkg existing hroot hcat]
    exact mem_map_snd_of_alGet _ k v hget
  · unfold skippedCount skipEligible
    rw [hno]
    simp

/-- Witness for `skip_existing_preserves_items`: a run with `--no-override`
over a tree whose only entity is already persisted keeps the persisted
item byte-identical and counts one skip. -/
theorem skip_existing_witness :
    alGet (finalItemMap ⟨true, []⟩ exFsButton (buildPackageMap exPkgReact)
        (buildRegistryEntityMap exFsButton) (existingItemMapOf (some exButtonRegistry))) "button"
      = some exOldButton
    ∧ exOldButton ∈ (runMain ⟨true, []⟩ exFsButton exPkgReact (some exButtonRegistry)).itemsD
    ∧ skippedCount ⟨true, []⟩ exFsButton (existingItemMapOf (some exButtonRegistry)) = 1 := by
  have h := skip_existing_preserves_items ⟨true, []⟩ exFsButton exPkgReact
    (some exButtonRegistry) rfl
  have hb := h.2.1 "button" exOldButton (by decide)
  refine ⟨hb.1, hb.2 rfl rfl, ?_⟩
  rw [h.2.2]
  decide

-- ---------------------------------------------------------------------------
-- C9: entities with no eligible source file
-- ---------------------------------------------------------------------------

/-- C9: an entity whose directory holds no eligible source file produces
no manifest item, and when every selected entity of a given name has no
eligible source file, the persisted item of that name passes through the
run unchanged. -/
theorem no_eligible_files_no_item :
    (∀ (cat n : String) (files : List SrcFile) (cfg : CategoryCfg)
        (pm rm : List (String × String)),
      files.filter (fun f => isSourceFile f.path) = [] →
      processEntity cat n files cfg pm rm = none)
    ∧ (∀ (opts : CliOptions) (fs : FS) (pkg : PackageJson) (existing : Option Registry)
        (n : String),
      (∀ ce ∈ selectedEntities opts fs, ce.2.name = n →
        ce.2.files.filter (fun f => isSourceFile f.path) = []) →
      alGet (finalItemMap opts fs (buildPackageMap pkg) (buildRegistryEntityMap fs)
        (existingItemMapOf existing)) n = alGet (existingItemMapOf existing) n) := by
  have hnone : ∀ (cat n : String) (files : List SrcFile) (cfg : CategoryCfg)
      (pm rm : List (String × String)),
      files.filter (fun f => isSourceFile f.path) = [] →
      processEntity cat n files cfg pm rm = none := by
    intro cat n files cfg pm rm hempty
    unfold processEntity
    rw [hempty]
    rfl
  refine ⟨hnone, ?_⟩
  intro opts fs pkg existing n hall
  have hfind : (processedEntries opts fs (buildPackageMap pkg) (buildRegistryEntityMap fs)
      (existingItemMapOf existing)).reverse.find? (fun kv => kv.1 == n) = none := by
    rw [List.find?_eq_none]
    intro kv hkv
    simp only [beq_iff_eq]
    intro hc
    have hkv2 := List.mem_reverse.mp hkv
    unfold processedEntries at hkv2
    obtain ⟨ce, hce, hg⟩ := List.mem_filterMap.mp hkv2
    by_cases hskip : skipEligible opts (existingItemMapOf existing) ce = true
    · rw [if_pos hskip] at hg
      exact absurd hg (by simp)
    · rw [if_neg hskip] at hg
      cases hpe : processEntity ce.1.1 ce.2.name ce.2.files ce.1.2 (buildPackageMap pkg)
          (buildRegistryEntityMap fs) with
      | none => rw [hpe] at hg; exact absurd hg (by simp)
      | some it =>
        rw [hpe] at hg
        simp only [Option.map_some'] at hg
        obtain rfl := Option.some.inj hg
        have := hnone ce.1.1 ce.2.name ce.2.files ce.1.2 (buildPackageMap pkg)
          (buildRegistryEntityMap fs) (hall ce hce hc)
        rw [this] at hpe
        exact absurd hpe (by simp)
  rw [alGet_finalItemMap, hfind]
  rfl

/-- Witness for `no_eligible_files_no_item`: an entity directory holding
only a `*.test.tsx` file yields no item, and a persisted item of its
name passes through. -/
theorem no_eligible_files_witness :
    processEntity "components" "button"
      [⟨"registry/components/button/button.test.tsx", "export {}"⟩]
      cfgComponents [] [] = none
    ∧ alGet (finalItemMap optionsPlain exFsTestOnly (buildPackageMap exPkgReact)
        (buildRegistryEntityMap exFsTestOnly) (existingItemMapOf (some exButtonRegistry)))
        "button"
      = alGet (existingItemMapOf (some exButtonRegistry)) "button" := by
  constructor
  · exact (no_eligible_files_no_item).1 "components" "button"
      [⟨"registry/components/button/button.test.tsx", "export {}"⟩] cfgComponents [] []
      (by decide)
  · exact (no_eligible_files_no_item).2 optionsPlain exFsTestOnly exPkgReact
      (some exButtonRegistry) "button" (by decide)

-- ---------------------------------------------------------------------------
-- C4: self-reference elimination
-- ---------------------------------------------------------------------------

/-- C4: after analysis the entity's own canonical (kebab-cased) name is
not in its catalog-dependency set, the removal is idempotent, and the
emitted `registryDependencies` list never contains the canonical name. -/
theorem self_reference_removed
    (cat n : String) (files : List SrcFile) (cfg : CategoryCfg)
    (pm rm : List (String × String)) :
    toKebabCase n ∉ setDelete
      (entityDeps (files.filter (fun f => isSourceFile f.path)) pm rm).registry (toKebabCase n)
    ∧ setDelete (setDelete
        (entityDeps (files.filter (fun f => isSourceFile f.path)) pm rm).registry
        (toKebabCase n)) (toKebabCase n)
      = setDelete
        (entityDeps (files.filter (fun f => isSourceFile f.path)) pm rm).registry (toKebabCase n)
    ∧ (∀ item, processEntity cat n files cfg pm rm = some item →
        ∀ l, item.registryDependencies = some l → toKebabCase n ∉ l) := by
  refine ⟨mem_setDelete_self _ _, setDelete_idem _ _, ?_⟩
  intro item hit l hl
  unfold processEntity at hit
  by_cases hempty : (files.filter (fun f => isSourceFile f.path)).isEmpty = true
  · rw [if_pos hempty] at hit
    exact absurd hit (by simp)
  · rw [if_neg hempty] at hit
    obtain rfl := Option.some.inj hit
    simp only at hl
    by_cases hlen : 0 < (setDelete
        (entityDeps (files.filter (fun f => isSourceFile f.path)) pm rm).registry
        (toKebabCase n)).length
    · rw [if_pos hlen] at hl
      obtain rfl := Option.some.inj hl
      intro hmem
      exact mem_setDelete_self
        (entityDeps (files.filter (fun f => isSourceFile f.path)) pm rm).registry
        (toKebabCase n) ((sortStrings_perm _).mem_iff.mp hmem)
    · rw [if_neg hlen] at hl
      exact absurd hl (by simp)

/-- Witness for `self_reference_removed`: spec scenario — `components/card`
imports `@/components/card/helpers` (itself) and `@/lib/utils`; after
self-reference removal `registryDependencies` is `["utils"]`, without
`card`. -/
theorem self_reference_witness :
    processEntity "components" "card" [exCardFile] cfgComponents exCardPkgMap exCardRegMap
      = some exCardItem
    ∧ toKebabCase "card" ∉ ["utils"] := by
  constructor
  · decide
  · exact (self_reference_removed "components" "card" [exCardFile] cfgComponents
      exCardPkgMap exCardRegMap).2.2 exCardItem (by decide) ["utils"] (by decide)

-- ---------------------------------------------------------------------------
-- C8: sortedness of the emitted dependency arrays
-- ---------------------------------------------------------------------------

theorem addDep_nodup {d : FileDeps}
    (h : d.npm.Nodup ∧ d.registry.Nodup ∧ d.unresolved.Nodup) (c : DepClass) :
    (addDep d c).npm.Nodup ∧ (addDep d c).registry.Nodup ∧ (addDep d c).unresolved.Nodup := by
  obtain ⟨h1, h2, h3⟩ := h
  cases c with
  | registryDep name => exact ⟨h1, setAdd_nodup h2 name, h3⟩
  | npmDep v => exact ⟨setAdd_nodup h1 v, h2, h3⟩
  | unresolvedDep name => exact ⟨h1, h2, setAdd_nodup h3 name⟩
  | skipped => exact ⟨h1, h2, h3⟩

theorem analyzeImports_nodup (imports : List String) (pm rm : List (String × String)) :
    (analyzeImports imports pm rm).npm.Nodup
    ∧ (analyzeImports imports pm rm).registry.Nodup
    ∧ (analyzeImports imports pm rm).unresolved.Nodup := by
  unfold analyzeImports
  have : ∀ (l : List String) (d : FileDeps),
      d.npm.Nodup ∧ d.registry.Nodup ∧ d.unresolved.Nodup →
      (l.foldl (fun d p => addDep d (classifyImport p pm rm)) d).npm.Nodup
      ∧ (l.foldl (fun d p => addDep d (classifyImport p pm rm)) d).registry.Nodup
      ∧ (l.foldl (fun d p => addDep d (classifyImport p pm rm)) d).unresolved.Nodup := by
    intro l
    induction l with
    | nil => intro d h; exact h
    | cons p t ih => intro d h; exact ih _ (addDep_nodup h _)
  exact this imports emptyDeps (by simp [emptyDeps])

theorem entityDeps_nodup (sourceFiles : List SrcFile) (pm rm : List (String × String)) :
    (entityDeps sourceFiles pm rm).npm.Nodup
    ∧ (entityDeps sourceFiles pm rm).registry.Nodup
    ∧ (entityDeps sourceFiles pm rm).unresolved.Nodup := by
  unfold entityDeps
  have : ∀ (l : List SrcFile) (d : FileDeps),
      d.npm.Nodup ∧ d.registry.Nodup ∧ d.unresolved.Nodup →
      ∀ dd, dd = l.foldl (fun acc f =>
        if !(strEnds f.path ".css") then
          let fd := analyzeFile f.content pm rm
          ⟨setUnion acc.npm fd.npm, setUnion acc.registry fd.registry,
           setUnion acc.unresolved fd.unresolved⟩
        else acc) d →
      dd.npm.Nodup ∧ dd.registry.Nodup ∧ dd.unresolved.Nodup := by
    intro l
    induction l with
    | nil => intro d h dd hdd; rw [hdd]; exact h
    | cons f t ih =>
      intro d h dd hdd
      rw [List.foldl_cons] at hdd
      by_cases hcss : strEnds f.path ".css" = true
      · simp only [hcss, Bool.not_true, Bool.false_eq_true, if_false] at hdd
        exact ih d h dd hdd
      · simp only [Bool.not_eq_true] at hcss
        simp only [hcss, Bool.not_false, if_true] at hdd
        refine ih _ ?_ dd hdd
        exact ⟨setUnion_nodup h.1 _, setUnion_nodup h.2.1 _, setUnion_nodup h.2.2 _⟩
  exact this sourceFiles emptyDeps (by simp [emptyDeps]) _ rfl

/-- C8: the `dependencies` and `registryDependencies` arrays of a produced
item, when present, are strictly sorted, duplicate-free and non-empty;
when the corresponding set is empty the field is omitted. -/
theorem dep_arrays_sorted_nodup
    (cat n : String) (files : List SrcFile) (cfg : CategoryCfg)
    (pm rm : List (String × String)) (item : RegistryItem)
    (hit : processEntity cat n files cfg pm rm = some item) :
    (∀ l, item.dependencies = some l → l.Sorted strLtP ∧ l.Nodup ∧ l ≠ [])
    ∧ (item.dependencies = none →
        (entityDeps (files.filter (fun f => isSourceFile f.path)) pm rm).npm = [])
    ∧ (∀ l, item.registryDependencies = some l → l.Sorted strLtP ∧ l.Nodup ∧ l ≠ [])
    ∧ (item.registryDependencies = none →
        setDelete (entityDeps (files.filter (fun f => isSourceFile f.path)) pm rm).registry
          (toKebabCase n) = []) := by
  unfold processEntity at hit
  by_cases hempty : (files.filter (fun f => isSourceFile f.path)).isEmpty = true
  · rw [if_pos hempty] at hit
    exact absurd hit (by simp)
  · rw [if_neg hempty] at hit
    obtain rfl := Option.some.inj hit
    have hnpm : (entityDeps (files.filter (fun f => isSourceFile f.path)) pm rm).npm.Nodup :=
      (entityDeps_nodup _ pm rm).1
    have hreg : (setDelete (entityDeps (files.filter (fun f => isSourceFile f.path)) pm rm).registry
        (toKebabCase n)).Nodup :=
      setDelete_nodup (entityDeps_nodup _ pm rm).2.1 _
    refine ⟨?_, ?_, ?_, ?_⟩
    · intro l hl
      simp only at hl
      by_cases hlen : 0 < (entityDeps (files.filter (fun f => isSourceFile f.path)) pm rm).npm.length
      · rw [if_pos hlen] at hl
        obtain rfl := Option.some.inj hl
        refine ⟨sortStrings_sorted_strict hnpm, sortStrings_nodup hnpm, ?_⟩
        apply sortStrings_ne_nil
        intro hc
        rw [hc] at hlen
        simp at hlen
      · rw [if_neg hlen] at hl
        exact absurd hl (by simp)
    · intro hl
      simp only at hl
      by_cases hlen : 0 < (entityDeps (files.filter (fun f => isSourceFile f.path)) pm rm).npm.length
      · rw [if_pos hlen] at hl
        exact absurd hl (by simp)
      · simp only [Nat.not_lt, Nat.le_zero] at hlen
        exact List.length_eq_zero.mp hlen
    · intro l hl
      simp only at hl
      by_cases hlen : 0 < (setDelete
          (entityDeps (files.filter (fun f => isSourceFile f.path)) pm rm).registry
          (toKebabCase n)).length
      · rw [if_pos hlen] at hl
        obtain rfl := Option.some.inj hl
        refine ⟨sortStrings_sorted_strict hreg, sortStrings_nodup hreg, ?_⟩
        apply sortStrings_ne_nil
        intro hc
        rw [hc] at hlen
        simp at hlen
      · rw [if_neg hlen] at hl
        exact absurd hl (by simp)
    · intro hl
      simp only at hl
      by_cases hlen : 0 < (setDelete
          (entityDeps (files.filter (fun f => isSourceFile f.path)) pm rm).registry
          (toKebabCase n)).length
      · rw [if_pos hlen] at hl
        exact absurd hl (by simp)
      · simp only [Nat.not_lt, Nat.le_zero] at hlen
        exact List.length_eq_zero.mp hlen

/-- Witness for `dep_arrays_sorted_nodup` at the card scenario: the emitted
`dependencies` array `["react@18.0.0", "zod@3.0.0"]` is strictly sorted,
duplicate-free and non-empty. -/
theorem dep_arrays_sorted_witness :
    List.Sorted strLtP ["react@18.0.0", "zod@3.0.0"]
    ∧ (["react@18.0.0", "zod@3.0.0"] : List String).Nodup
    ∧ (["react@18.0.0", "zod@3.0.0"] : List String) ≠ []
    ∧ List.Sorted strLtP ["utils"] := by
  have h := dep_arrays_sorted_nodup "components" "card" [exCardFile] cfgComponents
    exCardPkgMap exCardRegMap exCardItem (by decide)
  have h1 := h.1 ["react@18.0.0", "zod@3.0.0"] rfl
  have h2 := h.2.2.1 ["utils"] rfl
  exact ⟨h1.1, h1.2.1, h1.2.2, h2.1⟩

-- ---------------------------------------------------------------------------
-- C3: UI-component patterns take absolute priority
-- ---------------------------------------------------------------------------

theorem findSome?_first {β γ : Type} (f : β → Option γ) :
    ∀ (l : List β) (b : γ), l.findSome? f = some b →
      ∃ pre x post, l = pre ++ x :: post ∧ f x = some b ∧ ∀ y ∈ pre, f y = none
  | [], b, h => by simp at h
  | x :: t, b, h => by
    rw [List.findSome?_cons] at h
    cases hx : f x with
    | some c =>
      rw [hx] at h
      simp only at h
      obtain rfl := Option.some.inj h
      exact ⟨[], x, t, rfl, hx, by simp⟩
    | none =>
      rw [hx] at h
      simp only at h
      obtain ⟨pre, y, post, heq, hy, hpre⟩ := findSome?_first f t b h
      refine ⟨x :: pre, y, post, by rw [heq]; rfl, hy, ?_⟩
      intro z hz
      rcases List.mem_cons.mp hz with rfl | hz2
      · exact hx
      · exact hpre z hz2

/-- C3: an import path matching a UI-component pattern is always
classified as a catalog dependency named by the first matching pattern's
capture group, whatever the package map and registry entity map hold (no
other classification rule applies). -/
theorem ui_pattern_priority
    (p name : String) (h : extractShadcnComponent p = some name) :
    (∀ pm rm : List (String × String), classifyImport p pm rm = DepClass.registryDep name)
    ∧ ∃ pre pat post, SHADCN_UI_PREFIXES = pre ++ pat :: post
        ∧ uiPatternCapture pat p = some name
        ∧ ∀ q ∈ pre, uiPatternCapture q p = none := by
  constructor
  · intro pm rm
    unfold classifyImport
    rw [h]
  · exact findSome?_first (fun pat => uiPatternCapture pat p) SHADCN_UI_PREFIXES name h

/-- Witness for `ui_pattern_priority`: `@/components/ui/input` is a
catalog dependency on `input` even when the maps would classify it
otherwise. -/
theorem ui_pattern_priority_witness :
    classifyImport "@/components/ui/input" [("@", "@@1")] [("components/ui", "clash")]
      = DepClass.registryDep "input"
    ∧ extractShadcnComponent "@/components/ui/input" = some "input" := by
  refine ⟨?_, by decide⟩
  exact (ui_pattern_priority "@/components/ui/input" "input" (by decide)).1
    [("@", "@@1")] [("components/ui", "clash")]

-- ---------------------------------------------------------------------------
-- C2: alias resolution and the silent drop
-- ---------------------------------------------------------------------------

theorem alias_no_dot (a : String) (ha : a ∈ LOCAL_ALIASES) (p : String)
    (h : strStarts p a = true) : strStarts p "." = false := by
  simp only [LOCAL_ALIASES, List.mem_cons, List.not_mem_nil, or_false] at ha
  unfold strStarts at h ⊢
  cases hd : p.data with
  | nil =>
    rw [hd] at h
    rcases ha with rfl | rfl | rfl
    · rw [show ("@/" : String).data = [Char.ofNat 64, slashChar] from rfl] at h
      simp [List.isPrefixOf] at h
    · rw [show ("~/" : String).data = [Char.ofNat 126, slashChar] from rfl] at h
      simp [List.isPrefixOf] at h
    · rw [show ("#" : String).data = [Char.ofNat 35] from rfl] at h
      simp [List.isPrefixOf] at h
  | cons c cs =>
    rw [hd] at h
    have hc : c ≠ dotChar := by
      rcases ha with rfl | rfl | rfl
      · rw [show ("@/" : String).data = [Char.ofNat 64, slashChar] from rfl] at h
        simp only [List.isPrefixOf, Bool.and_eq_true, beq_iff_eq] at h
        rw [← h.1]
        decide
      · rw [show ("~/" : String).data = [Char.ofNat 126, slashChar] from rfl] at h
        simp only [List.isPrefixOf, Bool.and_eq_true, beq_iff_eq] at h
        rw [← h.1]
        decide
      · rw [show ("#" : String).data = [Char.ofNat 35] from rfl] at h
        simp only [List.isPrefixOf, Bool.and_eq_true, beq_iff_eq] at h
        rw [← h.1]
        decide
    rw [show ("." : String).data = [dotChar] from rfl]
    have hbeq : (dotChar == c) = false := by
      simp only [beq_eq_false_iff_ne, ne_eq]
      intro hcc
      exact hc hcc.symm
    simp [List.isPrefixOf, hbeq]

theorem resolveRegistryDep_eq_spec (p : String) (rm : List (String × String)) :
    resolveRegistryDep p rm = aliasResolutionSpec p rm := by
  unfold resolveRegistryDep aliasResolutionSpec
  generalize LOCAL_ALIASES = l
  induction l with
  | nil => rfl
  | cons a t ih =>
    by_cases hsa : strStarts p a = true
    · rw [List.find?_cons_of_pos _ hsa]
      simp only [aliasScanSpec, hsa, if_true]
    · rw [List.find?_cons_of_neg _ (by simpa using hsa)]
      simp only [aliasScanSpec, hsa, Bool.false_eq_true, if_false]
      exact ih

/-- C2: for an alias-prefixed import that matches no UI-component pattern,
alias resolution scans the configured prefixes in order and stops at the
first matching prefix (exact lookup, then the two-segment lookup), and
when it misses the import contributes nothing at all to any of the three
dependency sets. -/
theorem alias_resolution_first_prefix_and_silent_drop
    (p : String) (pm rm : List (String × String))
    (hui : extractShadcnComponent p = none)
    (ha : LOCAL_ALIASES.any (fun a => strStarts p a) = true) :
    resolveRegistryDep p rm = aliasResolutionSpec p rm
    ∧ (resolveRegistryDep p rm = none →
        classifyImport p pm rm = DepClass.skipped
        ∧ ∀ imports, analyzeImports (p :: imports) pm rm = analyzeImports imports pm rm) := by
  refine ⟨resolveRegistryDep_eq_spec p rm, ?_⟩
  intro hres
  obtain ⟨a, hmem, hsa⟩ := List.any_eq_true.mp ha
  have hdot : strStarts p "." = false := alias_no_dot a hmem p hsa
  have hclass : classifyImport p pm rm = DepClass.skipped := by
    unfold classifyImport
    rw [hui]
    simp only [hdot, Bool.not_false, if_true, hres]
    unfold classifyTail
    have hlocal : isLocalImport p = true := by
      unfold isLocalImport
      rw [ha]
      simp
    rw [if_pos hlocal]
  refine ⟨hclass, ?_⟩
  intro imports
  unfold analyzeImports
  rw [List.foldl_cons, hclass]
  rfl

/-- Witness for `alias_resolution_first_prefix_and_silent_drop`:
`@/nowhere/else` starts with the `@/` alias but resolves to no registry
entity, so it is dropped silently. -/
theorem alias_silent_drop_witness :
    classifyImport "@/nowhere/else" [("react", "react@18.2.0")] [("lib/utils", "utils")]
      = DepClass.skipped
    ∧ analyzeImports ["@/nowhere/else", "react"] [("react", "react@18.2.0")]
        [("lib/utils", "utils")]
      = analyzeImports ["react"] [("react", "react@18.2.0")] [("lib/utils", "utils")] := by
  have h := alias_resolution_first_prefix_and_silent_drop "@/nowhere/else"
    [("react", "react@18.2.0")] [("lib/utils", "utils")] (by decide) (by decide)
  have h2 := h.2 (by decide)
  exact ⟨h2.1, h2.2 ["react"]⟩

-- ---------------------------------------------------------------------------
-- C10: version precedence across package.json sections
-- ---------------------------------------------------------------------------

theorem map_option_or {α β : Type} (a b : Option α) (f : α → β) :
    (a.or b).map f = optOr (a.map f) (b.map f) := by
  cases a <;> rfl

theorem classifyTail_npm (p : String) (pm : List (String × String)) (v : String)
    (h : classifyTail p pm = DepClass.npmDep v) :
    alGet pm (toPackageName p) = some v := by
  unfold classifyTail at h
  by_cases hloc : isLocalImport p = true
  · rw [if_pos hloc] at h
    exact absurd h (by simp)
  · rw [if_neg hloc] at h
    dsimp only at h
    by_cases hbi : NODE_BUILTINS.contains (toPackageName p) = true
    · rw [if_pos hbi] at h
      exact absurd h (by simp)
    · rw [if_neg hbi] at h
      cases halg : alGet pm (toPackageName p) with
      | none =>
        rw [halg] at h
        exact absurd h (by simp)
      | some w =>
        rw [halg] at h
        dsimp only at h
        simp only [DepClass.npmDep.injEq] at h
        rw [h]

theorem classifyImport_npm (p : String) (pm rm : List (String × String)) (v : String)
    (h : classifyImport p pm rm = DepClass.npmDep v) :
    alGet pm (toPackageName p) = some v := by
  unfold classifyImport at h
  cases hui : extractShadcnComponent p with
  | some nm =>
    rw [hui] at h
    exact absurd h (by simp)
  | none =>
    rw [hui] at h
    dsimp only at h
    by_cases hdot2 : strStarts p "." = true
    · simp only [hdot2, Bool.not_true, Bool.false_eq_true, if_false] at h
      exact classifyTail_npm p pm v h
    · simp only [Bool.not_eq_true] at hdot2
      simp only [hdot2, Bool.not_false, if_true] at h
      cases hrd : resolveRegistryDep p rm with
      | none =>
        rw [hrd] at h
        exact classifyTail_npm p pm v h
      | some d =>
        rw [hrd] at h
        dsimp only at h
        by_cases hde : d.isEmpty = true
        · rw [if_pos hde] at h
          exact classifyTail_npm p pm v h
        · rw [if_neg hde] at h
          exact absurd h (by simp)

/-- C10: a package name listed in several package.json sections is
recorded with the version of the section scanned last (peerDependencies
over devDependencies over dependencies), and every emitted package
dependency carries exactly the recorded `name@version` string. -/
theorem package_version_last_section_wins
    (pkg : PackageJson) (k : String)
    (hd : ((pkg.dependencies.getD []).map (fun nv => nv.1)).Nodup)
    (hv : ((pkg.devDependencies.getD []).map (fun nv => nv.1)).Nodup)
    (hp : ((pkg.peerDependencies.getD []).map (fun nv => nv.1)).Nodup) :
    alGet (buildPackageMap pkg) k
      = optOr (((pkg.peerDependencies.getD []).find? (fun nv => nv.1 == k)).map
          (fun nv => nv.1 ++ "@" ++ nv.2))
        (optOr (((pkg.devDependencies.getD []).find? (fun nv => nv.1 == k)).map
            (fun nv => nv.1 ++ "@" ++ nv.2))
          (((pkg.dependencies.getD []).find? (fun nv => nv.1 == k)).map
            (fun nv => nv.1 ++ "@" ++ nv.2)))
    ∧ (∀ (p : String) (rm : List (String × String)) (v : String),
        classifyImport p (buildPackageMap pkg) rm = DepClass.npmDep v →
        alGet (buildPackageMap pkg) (toPackageName p) = some v) := by
  constructor
  · unfold buildPackageMap
    rw [alGet_foldl_insert (fun (nv : String × String) => nv.1)
        (fun (nv : String × String) => nv.1 ++ "@" ++ nv.2)]
    rw [show alGet ([] : List (String × String)) k = none from rfl, optOr_none]
    rw [List.reverse_append, List.reverse_append]
    rw [List.find?_append, List.find?_append]
    rw [find?_reverse_eq_of_nodup_keys _ k _ hp,
        find?_reverse_eq_of_nodup_keys _ k _ hv,
        find?_reverse_eq_of_nodup_keys _ k _ hd]
    rw [map_option_or, map_option_or]
  · intro p rm v h
    exact classifyImport_npm p (buildPackageMap pkg) rm v h

/-- Witness for `package_version_last_section_wins` on a package.json
where `react` appears in all three sections. -/
theorem package_version_witness :
    alGet (buildPackageMap exPkgOverlap) "react" = some "react@18.2.0"
    ∧ alGet (buildPackageMap exPkgOverlap) "vitest" = some "vitest@1.0.0"
    ∧ alGet (buildPackageMap exPkgOverlap) "zod" = some "zod@3.0.0"
    ∧ alGet (buildPackageMap exPkgOverlap) (toPackageName "react/jsx-runtime")
        = some "react@18.2.0" := by
  have h1 := package_version_last_section_wins exPkgOverlap "react"
    (by decide) (by decide) (by decide)
  have h2 := package_version_last_section_wins exPkgOverlap "vitest"
    (by decide) (by decide) (by decide)
  have h3 := package_version_last_section_wins exPkgOverlap "zod"
    (by decide) (by decide) (by decide)
  refine ⟨h1.1.trans (by decide), h2.1.trans (by decide), h3.1.trans (by decide), ?_⟩
  exact h1.2 "react/jsx-runtime" [] "react@18.2.0" (by decide)

-- ---------------------------------------------------------------------------
-- C6: top-level manifest metadata
-- ---------------------------------------------------------------------------

/-- C6 (amended): in every completed run the output's catalog name and
homepage come from the persisted manifest when one is present and from
the fixed defaults otherwise, while the schema identifier is always the
fixed URL, regardless of what the persisted manifest carried. -/
theorem manifest_metadata
    (opts : CliOptions) (fs : FS) (pkg : PackageJson) (existing : Option Registry)
    (r : Registry) (n : Nat)
    (h : runMain opts fs pkg existing = RunResult.wrote r n) :
    r.schema = SCHEMA_URL
    ∧ (∀ er, existing = some er → r.name = er.name ∧ r.homepage = er.homepage)
    ∧ (existing = none → r.name = REGISTRY_NAME ∧ r.homepage = REGISTRY_HOMEPAGE) := by
  obtain ⟨-, -, hschema, hname, hhome⟩ := runMain_wrote_inv opts fs pkg existing r n h
  refine ⟨hschema, ?_, ?_⟩
  · intro er her
    subst her
    simp only [Option.map_some', Option.getD_some] at hname hhome
    exact ⟨hname, hhome⟩
  · intro hnone
    subst hnone
    simp only [Option.map_none', Option.getD_none] at hname hhome
    exact ⟨hname, hhome⟩

/-- C6, counterexample to the original claim: a persisted manifest with a
custom schema identifier is not preserved — the output schema is always
the fixed URL. -/
theorem schema_not_preserved_counterexample :
    (runMain optionsPlain exFsEmptyComponents pkgEmpty (some exCustomMeta)).schemaD
      = "https://ui.shadcn.com/schema/registry.json"
    ∧ exCustomMeta.schema = "custom-schema"
    ∧ (runMain optionsPlain exFsEmptyComponents pkgEmpty (some exCustomMeta)).schemaD
        ≠ exCustomMeta.schema := by
  decide

/-- Witness for `manifest_metadata` at two concrete runs (persisted
manifest present and absent). -/
theorem manifest_metadata_witness :
    ((Registry.mk SCHEMA_URL "custom-name" "custom-home" []).name = exCustomMeta.name
      ∧ (Registry.mk SCHEMA_URL "custom-name" "custom-home" []).homepage
          = exCustomMeta.homepage
      ∧ (Registry.mk SCHEMA_URL "custom-name" "custom-home" []).schema = SCHEMA_URL)
    ∧ ((Registry.mk SCHEMA_URL REGISTRY_NAME REGISTRY_HOMEPAGE []).name = REGISTRY_NAME
      ∧ (Registry.mk SCHEMA_URL REGISTRY_NAME REGISTRY_HOMEPAGE []).homepage
          = REGISTRY_HOMEPAGE) := by
  have h1 := manifest_metadata optionsPlain exFsEmptyComponents pkgEmpty (some exCustomMeta)
    (Registry.mk SCHEMA_URL "custom-name" "custom-home" []) 0 (by decide)
  have h2 := manifest_metadata optionsPlain exFsEmptyComponents pkgEmpty none
    (Registry.mk SCHEMA_URL REGISTRY_NAME REGISTRY_HOMEPAGE []) 0 (by decide)
  obtain ⟨hn1, hh1⟩ := h1.2.1 exCustomMeta rfl
  obtain ⟨hn2, hh2⟩ := h2.2.2 rfl
  exact ⟨⟨hn1, hh1, h1.1⟩, hn2, hh2⟩

-- ---------------------------------------------------------------------------
-- C7: termination modes of a run
-- ---------------------------------------------------------------------------

/-- C7 (amended): a run terminates in exactly three ways — fatal missing
root (no output, completion signal 1), the no-recognised-category stop
(no output, completion signal 0), or a completed run that writes exactly
one manifest; no output is written exactly when the root is missing or
no configured category directory is present, and the completion signal
is non-zero only for the missing root. -/
theorem run_termination_modes
    (opts : CliOptions) (fs : FS) (pkg : PackageJson) (existing : Option Registry) :
    (runMain opts fs pkg existing = RunResult.fatalMissingRoot ↔ fs.rootExists = false)
    ∧ (runMain opts fs pkg existing = RunResult.exitNoCategories
        ↔ (fs.rootExists = true ∧ (activeCategories fs).isEmpty = true))
    ∧ ((runMain opts fs pkg existing).wroteOutput = false
        ↔ (fs.rootExists = false ∨ (activeCategories fs).isEmpty = true))
    ∧ ((runMain opts fs pkg existing).exitCode ≠ 0
        ↔ runMain opts fs pkg existing = RunResult.fatalMissingRoot) := by
  unfold runMain
  by_cases h1 : fs.rootExists
  · rw [h1]
    by_cases h2 : (activeCategories fs).isEmpty
    · rw [h2]
      simp [RunResult.wroteOutput, RunResult.exitCode, h1, h2]
    · simp only [Bool.not_eq_true] at h2
      rw [h2]
      simp [RunResult.wroteOutput, RunResult.exitCode, h1, h2]
  · simp only [Bool.not_eq_true] at h1
    rw [h1]
    simp [RunResult.wroteOutput, RunResult.exitCode, h1]

/-- C7, counterexample to the original claim: a root with no recognised
category directory terminates without writing any output, yet its
completion signal is 0, not non-zero. -/
theorem exit_without_output_counterexample :
    runMain optionsPlain exFsNoCategories pkgEmpty none = RunResult.exitNoCategories
    ∧ (runMain optionsPlain exFsNoCategories pkgEmpty none).wroteOutput = false
    ∧ (runMain optionsPlain exFsNoCategories pkgEmpty none).exitCode = 0
    ∧ exFsNoCategories.rootExists = true := by
  decide
